import Mathlib

/-!
Shallow embedding of `src/Likhith/training.py`.

The repository is a training-loop driver.  The external collaborators
(the dataset, the two models, the optimizer, the logging and wandb
clients, the filesystem) are modelled at their interface boundary:

* each mini-batch that the pipeline
  `for i, (data, labels) in enumerate(dataloader): ...` produces is
  recorded as a `Batch` carrying the integer label vector, the
  predicted label vector obtained from
  `torch.max(detection_model(main_model(data)).data, 1)`, and the
  scalar value of `criterion(output, labels)`; a failure raised by the
  data source, either model or the loss computation while producing
  batch `i` of an epoch is an `Except.error` entry in that epoch's
  batch stream;
* `torch.save` is modelled by an oracle `saveFail` mapping the target
  path to `none` (success) or `some msg` (the persistence call raises);
* every observable side effect (wandb.log, logging.info, torch.save,
  wandb.finish, the final best-accuracy log line, wandb.alert,
  logging.error) is an `Event` appended to a trace.

Python's true division in `100 * total_correct / total_samples` is
modelled exactly over `ℚ`; `total_samples = 0` raises
`ZeroDivisionError` (message "division by zero"), and `epoch % 0`
raises `ZeroDivisionError` as well, exactly as in Python.  The
`try ... except Exception` block of `train` (lines 80-131) is modelled
by the `Except String` component threaded through `runEpochs`; the
`except` clause converts the exception to its message and reports it
through the enabled sinks without re-raising, so the second component
of `train`, the exception escaping to the caller, is always `.ok ()`.
-/

deriving instance DecidableEq for Except

/-- Batch is the record of one successful iteration of the inner batch
loop (lines 85-96): the integer labels of the batch, the predicted
labels `torch.max(output.data, 1)`, and the scalar loss value of the
batch. -/
structure Batch where
  labels : List Int
  predicted : List Int
  loss : ℚ
deriving Repr, DecidableEq

/-- batchSize models `labels.size(0)` (line 95). -/
def batchSize (b : Batch) : Nat := b.labels.length

/-- batchCorrect models `(predicted == labels).sum().item()` (line 96):
the number of positions where prediction and label agree. -/
def batchCorrect (b : Batch) : Nat :=
  (b.predicted.zip b.labels).countP (fun p => p.1 == p.2)

/-- Config is the slice of the configuration dictionary that the
training loop reads: `epochs`, `checkpoint_epoch`, the `wandb` and
`log` flags, and the two derived paths `model_path` and
`best_model_path` populated by `results` before `train` runs. -/
structure Config where
  epochs : Nat
  checkpoint_epoch : Nat
  wandb : Bool
  log : Bool
  model_path : String
  best_model_path : String
deriving Repr, DecidableEq

/-- World is the oracle for the external collaborators: `batches e` is
the stream the dataloader pipeline yields during epoch `e` (an
`Except.error msg` entry is a failure raised mid-epoch by the data
source, a model or the loss computation), and `saveFail p` tells
whether `torch.save` to path `p` raises. -/
structure World where
  batches : Nat → List (Except String Batch)
  saveFail : String → Option String

/-- Event is one observable side effect of `train`, in program order. -/
inductive Event where
  | wandbLog (epoch : Nat) (loss acc : ℚ)
  | logInfo (epoch : Nat) (loss acc : ℚ)
  | savePeriodic (epoch : Nat) (path : String)
  | saveBest (epoch : Nat) (path : String)
  | wandbFinish
  | logBest (acc : ℚ)
  | wandbAlert (msg : String)
  | logError (msg : String)
deriving Repr, DecidableEq

/-- periodicPath models
`os.path.join(config['model_path'], f'epoch_{epoch}.pth')` (line 112). -/
def periodicPath (cfg : Config) (epoch : Nat) : String :=
  cfg.model_path ++ "/epoch_" ++ toString epoch ++ ".pth"

/-- runBatchesAux models the inner batch loop (lines 85-96): it threads
`total_correct`, `total_samples` and the Python variable `loss` (whose
value after the loop is the last batch's loss) through the stream,
aborting with the exception message if an iteration raises. -/
def runBatchesAux (correct samples : Nat) (lastLoss : ℚ) :
    List (Except String Batch) → Except String (Nat × Nat × ℚ)
  | [] => .ok (correct, samples, lastLoss)
  | .error msg :: _ => .error msg
  | .ok b :: rest =>
      runBatchesAux (correct + batchCorrect b) (samples + batchSize b) b.loss rest

/-- runBatches runs the batch loop of one epoch from the zeroed
counters of lines 82-83 (the initial `loss` value 0 is junk: the code
only reads `loss` when at least one batch was processed). -/
def runBatches (l : List (Except String Batch)) : Except String (Nat × Nat × ℚ) :=
  runBatchesAux 0 0 0 l

/-- reportError models the `except Exception as e` handler
(lines 126-131): `wandb.alert` when the wandb flag is set, then
`logging.error` when the log flag is set. -/
def reportError (cfg : Config) (msg : String) : List Event :=
  (if cfg.wandb then [Event.wandbAlert msg] else []) ++
  (if cfg.log then [Event.logError msg] else [])

/-- bestStep models the best-model block (lines 115-121).  `best` is
the Python variable `best_accuracy`, `none` while still unbound;
reading it unbound raises a NameError.  The save events of the events
list `evs` already emitted this epoch are kept when a save raises. -/
def bestStep (cfg : Config) (w : World) (epoch : Nat) (best : Option ℚ) (acc : ℚ)
    (evs : List Event) : List Event × Except String ℚ :=
  if epoch = 0 then
    match w.saveFail cfg.best_model_path with
    | some msg => (evs, .error msg)
    | none => (evs ++ [Event.saveBest epoch cfg.best_model_path], .ok acc)
  else
    match best with
    | none => (evs, .error "name best_accuracy is not defined")
    | some b =>
      if b < acc then
        match w.saveFail cfg.best_model_path with
        | some msg => (evs, .error msg)
        | none => (evs ++ [Event.saveBest epoch cfg.best_model_path], .ok acc)
      else (evs, .ok b)

/-- periodicStep models the periodic-checkpoint block (lines 110-113)
followed by the best-model block.  `epoch % config['checkpoint_epoch']`
with a zero interval raises ZeroDivisionError, as in Python. -/
def periodicStep (cfg : Config) (w : World) (epoch : Nat) (best : Option ℚ) (acc : ℚ)
    (evs : List Event) : List Event × Except String ℚ :=
  if cfg.checkpoint_epoch = 0 then
    (evs, .error "integer division or modulo by zero")
  else if epoch % cfg.checkpoint_epoch = 0 then
    match w.saveFail (periodicPath cfg epoch) with
    | some msg => (evs, .error msg)
    | none =>
        bestStep cfg w epoch best acc (evs ++ [Event.savePeriodic epoch (periodicPath cfg epoch)])
  else bestStep cfg w epoch best acc evs

/-- epochStep models one iteration of `for epoch in range(config['epochs'])`
(lines 81-121): the batch loop, the accuracy computation of line 99
(which raises ZeroDivisionError when no sample was seen), the wandb and
log records of lines 101-108, then the two checkpoint blocks.  It
returns the events emitted during the epoch and either the updated
`best_accuracy` or the message of the exception that escaped the
epoch. -/
def epochStep (cfg : Config) (w : World) (epoch : Nat) (best : Option ℚ) :
    List Event × Except String ℚ :=
  match runBatches (w.batches epoch) with
  | .error msg => ([], .error msg)
  | .ok (correct, samples, lastLoss) =>
    if samples = 0 then ([], .error "division by zero")
    else
      periodicStep cfg w epoch best ((100 * correct : ℚ) / (samples : ℚ))
        ((if cfg.wandb then [Event.wandbLog epoch lastLoss ((100 * correct : ℚ) / (samples : ℚ))] else []) ++
         (if cfg.log then [Event.logInfo epoch lastLoss ((100 * correct : ℚ) / (samples : ℚ))] else []))

/-- runEpochs runs epochs `epoch, epoch+1, ...` while `n` epochs remain,
threading `best_accuracy` and accumulating the trace; an exception
escaping an epoch aborts the loop with its message. -/
def runEpochs (cfg : Config) (w : World) (best : Option ℚ) (epoch : Nat) :
    Nat → List Event × Except String (Option ℚ)
  | 0 => ([], .ok best)
  | n + 1 =>
    match epochStep cfg w epoch best with
    | (evs, .error msg) => (evs, .error msg)
    | (evs, .ok b) =>
      let rest := runEpochs cfg w (some b) (epoch + 1) n
      (evs ++ rest.1, rest.2)

/-- train models `train(config)` (lines 60-131) from the point where
the `try` block starts: the epoch loop, then on success `wandb.finish()`
(line 122-123) and the final best-accuracy log line (line 124-125,
which raises a NameError when `best_accuracy` was never bound, i.e.
with zero epochs), with the `except` clause reporting any caught
exception through the enabled sinks.  The second component is the
exception escaping `train` to its caller: the catch-all handler
re-raises nothing, so it is `.ok ()` on every path. -/
def train (cfg : Config) (w : World) : List Event × Except String Unit :=
  let r := runEpochs cfg w none 0 cfg.epochs
  match r.2 with
  | .error msg => (r.1 ++ reportError cfg msg, .ok ())
  | .ok best =>
    let evs2 := r.1 ++ (if cfg.wandb then [Event.wandbFinish] else [])
    if cfg.log then
      match best with
      | some b => (evs2 ++ [Event.logBest b], .ok ())
      | none => (evs2 ++ reportError cfg "name best_accuracy is not defined", .ok ())
    else (evs2, .ok ())

/-- epochOk says the batch loop of epoch `e` finishes without an
exception and saw at least one sample, so line 99 divides by a nonzero
count. -/
def epochOk (w : World) (e : Nat) : Bool :=
  match runBatches (w.batches e) with
  | .ok (_, s, _) => !(s == 0)
  | .error _ => false

/-- epochAcc is the accuracy `100 * total_correct / total_samples` that
line 99 computes for epoch `e` (junk 0 when the epoch fails). -/
def epochAcc (w : World) (e : Nat) : ℚ :=
  match runBatches (w.batches e) with
  | .ok (c, s, _) => (100 * c : ℚ) / (s : ℚ)
  | .error _ => 0

/-- epochLastLoss is the value of the Python variable `loss` after the
batch loop of epoch `e` (junk 0 when the epoch fails or is empty). -/
def epochLastLoss (w : World) (e : Nat) : ℚ :=
  match runBatches (w.batches e) with
  | .ok (_, _, l) => l
  | .error _ => 0

/-- epochClean says epoch `e` runs to completion with no exception:
the batch loop succeeds with a positive sample count and neither
checkpoint write that the epoch may attempt raises. -/
def epochClean (cfg : Config) (w : World) (e : Nat) : Bool :=
  epochOk w e && (w.saveFail (periodicPath cfg e)).isNone &&
    (w.saveFail cfg.best_model_path).isNone

/-- cleanRun says the whole run is failure-free: the checkpoint
interval is positive and every epoch of the run is clean. -/
def cleanRun (cfg : Config) (w : World) : Prop :=
  cfg.checkpoint_epoch ≠ 0 ∧ ∀ e < cfg.epochs, epochClean cfg w e = true

instance (cfg : Config) (w : World) : Decidable (cleanRun cfg w) := by
  unfold cleanRun; infer_instance

/-- runBest is the value of the tracker `best_accuracy` after epoch `e`
of a clean run: the running maximum of the epoch accuracies so far. -/
def runBest (w : World) : Nat → ℚ
  | 0 => epochAcc w 0
  | e + 1 => max (runBest w e) (epochAcc w (e + 1))

/-- bestWriteB decides whether epoch `e` of a clean run writes the
best-model checkpoint: unconditionally at epoch 0, and at a later
epoch exactly when its accuracy strictly exceeds the tracker. -/
def bestWriteB (w : World) : Nat → Bool
  | 0 => true
  | e + 1 => decide (runBest w e < epochAcc w (e + 1))

/-- cleanEpochEvents is the event list a clean epoch `e` emits, in
program order: the wandb record, the log line, the periodic checkpoint
when the interval divides `e`, the best-model checkpoint when the
best-accuracy policy fires. -/
def cleanEpochEvents (cfg : Config) (w : World) (e : Nat) : List Event :=
  (if cfg.wandb then [Event.wandbLog e (epochLastLoss w e) (epochAcc w e)] else []) ++
  (if cfg.log then [Event.logInfo e (epochLastLoss w e) (epochAcc w e)] else []) ++
  (if e % cfg.checkpoint_epoch = 0 then [Event.savePeriodic e (periodicPath cfg e)] else []) ++
  (if bestWriteB w e then [Event.saveBest e cfg.best_model_path] else [])

/-- cleanTrace is the whole trace of a clean run: the epoch segments in
order, `wandb.finish` when tracking is on, the final best-accuracy log
line when logging is on. -/
def cleanTrace (cfg : Config) (w : World) : List Event :=
  ((List.range cfg.epochs).map (cleanEpochEvents cfg w)).flatten ++
  (if cfg.wandb then [Event.wandbFinish] else []) ++
  (if cfg.log then [Event.logBest (runBest w (cfg.epochs - 1))] else [])

/-- finalBatchLoss is the loss carried by the final mini-batch the data
source yields in epoch `e` (junk 0 when there is none). -/
def finalBatchLoss (w : World) (e : Nat) : ℚ :=
  match (w.batches e).getLast? with
  | some (.ok b) => b.loss
  | _ => 0

/-- sumSizes is the total number of samples the stream yields: the sum
of `labels.size(0)` over its successful batches. -/
def sumSizes (l : List (Except String Batch)) : Nat :=
  (l.map (fun x => match x with | .ok b => batchSize b | .error _ => 0)).sum

/-- trackerArg is the value of `best_accuracy` when epoch `e` starts in
a clean run: unbound before epoch 0, the running maximum afterwards. -/
def trackerArg (w : World) (e : Nat) : Option ℚ :=
  match e with
  | 0 => none
  | e' + 1 => some (runBest w e')

/-- isSink recognizes the events that touch the logging sink or the
metrics-tracking sink, as opposed to checkpoint writes. -/
def isSink : Event → Bool
  | .savePeriodic _ _ => false
  | .saveBest _ _ => false
  | _ => true

/-- isSave recognizes the two checkpoint-write events. -/
def isSave : Event → Bool
  | .savePeriodic _ _ => true
  | .saveBest _ _ => true
  | _ => false

/-- isBestSave recognizes a best-model checkpoint write. -/
def isBestSave : Event → Bool
  | .saveBest _ _ => true
  | _ => false

/-- countBestAt counts the best-model checkpoint writes a trace records
for epoch `e`. -/
def countBestAt (t : List Event) (e : Nat) : Nat :=
  t.countP (fun ev => match ev with | .saveBest e2 _ => e2 == e | _ => false)

/-- digitVal inverts `Nat.digitChar` on decimal digits. -/
def digitVal (c : Char) : Nat :=
  if c = '1' then 1 else if c = '2' then 2 else if c = '3' then 3
  else if c = '4' then 4 else if c = '5' then 5 else if c = '6' then 6
  else if c = '7' then 7 else if c = '8' then 8 else if c = '9' then 9 else 0

/-- decVal reads a most-significant-first decimal digit string back into
a number, starting from accumulator `a`. -/
def decVal : Nat → List Char → Nat
  | a, [] => a
  | a, c :: cs => decVal (10 * a + digitVal c) cs

lemma digitVal_digitChar : ∀ m, m < 10 → digitVal (Nat.digitChar m) = m := by decide

lemma decVal_toDigitsCore :
    ∀ (fuel n : Nat), n < 10 ^ fuel → ∀ (a : Nat) (ds : List Char),
      ∃ k, decVal a (Nat.toDigitsCore 10 fuel n ds) = decVal (a * 10 ^ k + n) ds := by
  intro fuel
  induction fuel with
  | zero =>
      intro n hn a ds
      have hn0 : n = 0 := by simpa using Nat.lt_one_iff.mp (by simpa using hn)
      subst hn0
      exact ⟨0, by simp [Nat.toDigitsCore]⟩
  | succ f ih =>
      intro n hn a ds
      by_cases h : n / 10 = 0
      · have hlt : n < 10 := by omega
        have hmod : n % 10 = n := Nat.mod_eq_of_lt hlt
        refine ⟨1, ?_⟩
        simp only [Nat.toDigitsCore, h, if_true, decVal, hmod, digitVal_digitChar n hlt]
        congr 1
        ring
      · have hq : n / 10 < 10 ^ f := by
          rw [Nat.div_lt_iff_lt_mul (by norm_num)]
          calc n < 10 ^ (f + 1) := hn
          _ = 10 ^ f * 10 := by ring
        obtain ⟨k, hk⟩ := ih (n / 10) hq a (Nat.digitChar (n % 10) :: ds)
        refine ⟨k + 1, ?_⟩
        have hstep : Nat.toDigitsCore 10 (f + 1) n ds =
            Nat.toDigitsCore 10 f (n / 10) (Nat.digitChar (n % 10) :: ds) := by
          simp [Nat.toDigitsCore, h]
        rw [hstep, hk]
        have hm : n % 10 < 10 := Nat.mod_lt _ (by norm_num)
        simp only [decVal, digitVal_digitChar (n % 10) hm]
        congr 1
        have hdm : 10 * (n / 10) + n % 10 = n := by omega
        calc 10 * (a * 10 ^ k + n / 10) + n % 10
            = a * (10 ^ k * 10) + (10 * (n / 10) + n % 10) := by ring
        _ = a * 10 ^ (k + 1) + n := by rw [hdm, pow_succ]

lemma decVal_toDigits (n : Nat) : decVal 0 (Nat.toDigits 10 n) = n := by
  have hb : n < 10 ^ (n + 1) :=
    lt_of_lt_of_le (Nat.lt_pow_self (by norm_num) n)
      (Nat.pow_le_pow_right (by norm_num) (Nat.le_succ n))
  obtain ⟨k, hk⟩ := decVal_toDigitsCore (n + 1) n hb 0 []
  simpa [Nat.toDigits, decVal] using hk

lemma natToString_data (n : Nat) : (toString n).data = Nat.toDigits 10 n := rfl

lemma natToString_data_inj {m n : Nat} (h : (toString m).data = (toString n).data) :
    m = n := by
  have hd : Nat.toDigits 10 m = Nat.toDigits 10 n := by
    simpa [natToString_data] using h
  have := congrArg (decVal 0) hd
  simpa [decVal_toDigits] using this

lemma periodicPath_injective (cfg : Config) {e f : Nat}
    (h : periodicPath cfg e = periodicPath cfg f) : e = f := by
  unfold periodicPath at h
  have hd := congrArg String.data h
  simp only [String.data_append, List.append_assoc] at hd
  have h1 := List.append_cancel_left hd
  have h2 := List.append_cancel_left h1
  have h3 : (toString e).data = (toString f).data := List.append_cancel_right h2
  exact natToString_data_inj h3

lemma batchCorrect_le_batchSize (b : Batch) : batchCorrect b ≤ batchSize b := by
  unfold batchCorrect batchSize
  calc (b.predicted.zip b.labels).countP (fun p => p.1 == p.2)
      ≤ (b.predicted.zip b.labels).length := List.countP_le_length _
  _ = b.predicted.length ⊓ b.labels.length := List.length_zip _ _
  _ ≤ b.labels.length := min_le_right _ _

lemma runBatchesAux_counts :
    ∀ (xs : List (Except String Batch)) (c s : Nat) (l : ℚ) (c2 s2 : Nat) (l2 : ℚ),
      runBatchesAux c s l xs = .ok (c2, s2, l2) →
      s2 = s + sumSizes xs ∧ c2 + s ≤ s2 + c := by
  intro xs
  induction xs with
  | nil =>
      intro c s l c2 s2 l2 h
      simp [runBatchesAux] at h
      obtain ⟨h1, h2, h3⟩ := h
      subst h1; subst h2
      constructor
      · simp [sumSizes]
      · omega
  | cons x rest ih =>
      intro c s l c2 s2 l2 h
      cases x with
      | error m => simp [runBatchesAux] at h
      | ok b =>
          simp only [runBatchesAux] at h
          obtain ⟨h1, h2⟩ := ih _ _ _ _ _ _ h
          have hb := batchCorrect_le_batchSize b
          constructor
          · rw [h1]; simp [sumSizes]; omega
          · omega

lemma runBatchesAux_lastLoss :
    ∀ (xs : List (Except String Batch)) (c s : Nat) (l : ℚ) (c2 s2 : Nat) (l2 : ℚ),
      runBatchesAux c s l xs = .ok (c2, s2, l2) →
      (xs = [] ∧ l2 = l) ∨ ∃ b, xs.getLast? = some (Except.ok b) ∧ l2 = b.loss := by
  intro xs
  induction xs with
  | nil =>
      intro c s l c2 s2 l2 h
      simp [runBatchesAux] at h
      exact Or.inl ⟨rfl, h.2.2.symm⟩
  | cons x rest ih =>
      intro c s l c2 s2 l2 h
      cases x with
      | error m => simp [runBatchesAux] at h
      | ok b =>
          simp only [runBatchesAux] at h
          rcases ih _ _ _ _ _ _ h with ⟨hrest, hl⟩ | ⟨b2, hlast, hl⟩
          · subst hrest
            exact Or.inr ⟨b, by simp, hl⟩
          · refine Or.inr ⟨b2, ?_, hl⟩
            have hne : rest ≠ [] := by
              intro hc; rw [hc] at hlast; simp at hlast
            rw [show (Except.ok b :: rest : List (Except String Batch)) =
              [Except.ok b] ++ rest from rfl, List.getLast?_append, hlast]
            simp

lemma epochOk_elim {w : World} {e : Nat} (h : epochOk w e = true) :
    ∃ c s l, runBatches (w.batches e) = .ok (c, s, l) ∧ s ≠ 0 := by
  unfold epochOk at h
  rcases hq : runBatches (w.batches e) with msg | ⟨c, s, l⟩
  · rw [hq] at h; simp at h
  · rw [hq] at h
    simp only [bne_iff_ne, ne_eq, Bool.not_eq_true'] at h
    exact ⟨c, s, l, rfl, by simpa using h⟩

lemma epochClean_parts {cfg : Config} {w : World} {e : Nat}
    (hcl : epochClean cfg w e = true) :
    epochOk w e = true ∧ w.saveFail (periodicPath cfg e) = none ∧
      w.saveFail cfg.best_model_path = none := by
  unfold epochClean at hcl
  simp only [Bool.and_eq_true, Option.isNone_iff_eq_none] at hcl
  exact ⟨hcl.1.1, hcl.1.2, hcl.2⟩

lemma epochStep_clean (cfg : Config) (w : World) (e : Nat)
    (hk : cfg.checkpoint_epoch ≠ 0) (hcl : epochClean cfg w e = true) :
    epochStep cfg w e (trackerArg w e) = (cleanEpochEvents cfg w e, .ok (runBest w e)) := by
  obtain ⟨hok, hsp, hsb⟩ := epochClean_parts hcl
  obtain ⟨c, s, l, hq, hs⟩ := epochOk_elim hok
  have hacc : epochAcc w e = (100 * c : ℚ) / (s : ℚ) := by unfold epochAcc; rw [hq]
  have hll : epochLastLoss w e = l := by unfold epochLastLoss; rw [hq]
  unfold epochStep
  rw [hq]
  dsimp only
  rw [if_neg hs]
  unfold periodicStep
  rw [if_neg hk]
  by_cases hmod : e % cfg.checkpoint_epoch = 0
  · rw [if_pos hmod, hsp]
    cases e with
    | zero =>
        unfold bestStep
        rw [if_pos rfl, hsb]
        simp [cleanEpochEvents, bestWriteB, runBest, hacc, hll, hmod, List.append_assoc]
    | succ e2 =>
        unfold bestStep trackerArg
        rw [if_neg (Nat.succ_ne_zero e2)]
        by_cases hlt : runBest w e2 < (100 * c : ℚ) / (s : ℚ)
        · simp only [if_pos hlt, hsb]
          have hbw : bestWriteB w (e2 + 1) = true := by
            simp [bestWriteB, hacc, hlt]
          have hrb : runBest w (e2 + 1) = (100 * c : ℚ) / (s : ℚ) := by
            simp [runBest, hacc]
            exact le_of_lt hlt
          simp [cleanEpochEvents, hbw, hrb, hacc, hll, hmod, List.append_assoc]
        · simp only [if_neg hlt]
          have hbw : bestWriteB w (e2 + 1) = false := by
            simp [bestWriteB, hacc]
            exact not_lt.mp hlt
          have hrb : runBest w (e2 + 1) = runBest w e2 := by
            simp [runBest, hacc]
            exact not_lt.mp hlt
          simp [cleanEpochEvents, hbw, hrb, hacc, hll, hmod, List.append_assoc]
  · rw [if_neg hmod]
    cases e with
    | zero => exact absurd (Nat.zero_mod _) hmod
    | succ e2 =>
        unfold bestStep trackerArg
        rw [if_neg (Nat.succ_ne_zero e2)]
        by_cases hlt : runBest w e2 < (100 * c : ℚ) / (s : ℚ)
        · simp only [if_pos hlt, hsb]
          have hbw : bestWriteB w (e2 + 1) = true := by
            simp [bestWriteB, hacc, hlt]
          have hrb : runBest w (e2 + 1) = (100 * c : ℚ) / (s : ℚ) := by
            simp [runBest, hacc]
            exact le_of_lt hlt
          simp [cleanEpochEvents, hbw, hrb, hacc, hll, hmod, List.append_assoc]
        · simp only [if_neg hlt]
          have hbw : bestWriteB w (e2 + 1) = false := by
            simp [bestWriteB, hacc]
            exact not_lt.mp hlt
          have hrb : runBest w (e2 + 1) = runBest w e2 := by
            simp [runBest, hacc]
            exact not_lt.mp hlt
          simp [cleanEpochEvents, hbw, hrb, hacc, hll, hmod, List.append_assoc]

lemma flatten_range_shift (g : Nat → List Event) (e m : Nat) :
    g e ++ ((List.range m).map (fun i => g (e + 1 + i))).flatten =
      ((List.range (m + 1)).map (fun i => g (e + i))).flatten := by
  rw [List.range_succ_eq_map, List.map_cons, List.flatten_cons, List.map_map]
  have hfun : ((fun i => g (e + i)) ∘ Nat.succ) = fun i => g (e + 1 + i) := by
    funext i
    simp only [Function.comp_apply]
    congr 1
    omega
  rw [hfun]
  simp

lemma runEpochs_clean (cfg : Config) (w : World) (hk : cfg.checkpoint_epoch ≠ 0) :
    ∀ (n e : Nat), (∀ i, e ≤ i → i < e + n → epochClean cfg w i = true) →
      runEpochs cfg w (trackerArg w e) e n =
        (((List.range n).map (fun i => cleanEpochEvents cfg w (e + i))).flatten,
          .ok (trackerArg w (e + n))) := by
  intro n
  induction n with
  | zero =>
      intro e h
      simp [runEpochs]
  | succ m ih =>
      intro e h
      have h0 : epochClean cfg w e = true := h e le_rfl (by omega)
      have hstep := epochStep_clean cfg w e hk h0
      have htr : (some (runBest w e)) = trackerArg w (e + 1) := rfl
      have hrest := ih (e + 1) (fun i h1 h2 => h i (by omega) (by omega))
      simp only [runEpochs, hstep, htr, hrest]
      rw [Prod.mk.injEq]
      constructor
      · exact flatten_range_shift (cleanEpochEvents cfg w) e m
      · have harith : e + 1 + m = e + (m + 1) := by omega
        rw [harith]

lemma runEpochs_clean_all (cfg : Config) (w : World) (h : cleanRun cfg w) :
    runEpochs cfg w none 0 cfg.epochs =
      (((List.range cfg.epochs).map (cleanEpochEvents cfg w)).flatten,
        .ok (trackerArg w cfg.epochs)) := by
  have := runEpochs_clean cfg w h.1 cfg.epochs 0 (fun i _ h2 => h.2 i (by omega))
  simpa [trackerArg] using this

lemma train_clean (cfg : Config) (w : World) (h : cleanRun cfg w)
    (he : 0 < cfg.epochs) : train cfg w = (cleanTrace cfg w, .ok ()) := by
  have hre := runEpochs_clean_all cfg w h
  obtain ⟨m, hm⟩ : ∃ m, cfg.epochs = m + 1 := ⟨cfg.epochs - 1, by omega⟩
  unfold train
  rw [hre]
  have htr : trackerArg w cfg.epochs = some (runBest w (cfg.epochs - 1)) := by
    rw [hm]; rfl
  rw [htr]
  unfold cleanTrace
  cases hw : cfg.wandb <;> cases hl : cfg.log <;>
    simp [hw, hl, List.append_assoc]

lemma countBestAt_append (a b : List Event) (tgt : Nat) :
    countBestAt (a ++ b) tgt = countBestAt a tgt + countBestAt b tgt := by
  unfold countBestAt
  exact List.countP_append _ _ _

lemma countBestAt_cleanEpochEvents (cfg : Config) (w : World) (i tgt : Nat) :
    countBestAt (cleanEpochEvents cfg w i) tgt =
      if i = tgt ∧ bestWriteB w i = true then 1 else 0 := by
  unfold cleanEpochEvents countBestAt
  cases hw : cfg.wandb <;> cases hl : cfg.log <;>
    by_cases hm : i % cfg.checkpoint_epoch = 0 <;>
    by_cases hb : bestWriteB w i = true <;>
    by_cases ht : i = tgt <;>
    simp [hm, hb, ht, List.countP_append, List.countP_cons,
      Bool.not_eq_true] at * <;> simp_all

lemma countBestAt_segs (cfg : Config) (w : World) :
    ∀ (n tgt : Nat),
      countBestAt (((List.range n).map (cleanEpochEvents cfg w)).flatten) tgt =
        if tgt < n ∧ bestWriteB w tgt = true then 1 else 0 := by
  intro n
  induction n with
  | zero => intro tgt; simp [countBestAt]
  | succ m ih =>
      intro tgt
      rw [List.range_succ, List.map_append, List.flatten_append, countBestAt_append, ih]
      have h2 : countBestAt ((List.map (cleanEpochEvents cfg w) [m]).flatten) tgt =
          if m = tgt ∧ bestWriteB w m = true then 1 else 0 := by
        simp only [List.map_cons, List.map_nil, List.flatten_cons, List.flatten_nil,
          List.append_nil]
        exact countBestAt_cleanEpochEvents cfg w m tgt
      rw [h2]
      by_cases htm : tgt = m
      · subst htm
        by_cases hb : bestWriteB w tgt = true <;> simp [hb] <;> omega
      · by_cases hb : bestWriteB w tgt = true <;> simp [hb, htm, Ne.symm htm] <;>
          split_ifs <;> omega

lemma countBestAt_cleanTrace (cfg : Config) (w : World) (tgt : Nat) :
    countBestAt (cleanTrace cfg w) tgt =
      if tgt < cfg.epochs ∧ bestWriteB w tgt = true then 1 else 0 := by
  unfold cleanTrace
  rw [countBestAt_append, countBestAt_append, countBestAt_segs]
  have h1 : countBestAt (if cfg.wandb then [Event.wandbFinish] else []) tgt = 0 := by
    cases cfg.wandb <;> simp [countBestAt]
  have h2 : countBestAt
      (if cfg.log then [Event.logBest (runBest w (cfg.epochs - 1))] else []) tgt = 0 := by
    cases cfg.log <;> simp [countBestAt]
  rw [h1, h2]
  omega

lemma mem_cleanEpochEvents_savePeriodic {cfg : Config} {w : World} {i e : Nat} {p : String} :
    Event.savePeriodic e p ∈ cleanEpochEvents cfg w i ↔
      i = e ∧ i % cfg.checkpoint_epoch = 0 ∧ p = periodicPath cfg i := by
  unfold cleanEpochEvents
  simp only [List.mem_append]
  cases hw : cfg.wandb <;> cases hl : cfg.log <;>
    by_cases hm : i % cfg.checkpoint_epoch = 0 <;>
    by_cases hb : bestWriteB w i = true <;>
    simp [hm, hb] <;> aesop

lemma mem_cleanEpochEvents_wandbLog {cfg : Config} {w : World} {i e : Nat} {l a : ℚ} :
    Event.wandbLog e l a ∈ cleanEpochEvents cfg w i ↔
      i = e ∧ cfg.wandb = true ∧ l = epochLastLoss w i ∧ a = epochAcc w i := by
  unfold cleanEpochEvents
  simp only [List.mem_append]
  cases hw : cfg.wandb <;> cases hl : cfg.log <;>
    by_cases hm : i % cfg.checkpoint_epoch = 0 <;>
    by_cases hb : bestWriteB w i = true <;>
    simp [hm, hb] <;> aesop

lemma mem_cleanEpochEvents_logInfo {cfg : Config} {w : World} {i e : Nat} {l a : ℚ} :
    Event.logInfo e l a ∈ cleanEpochEvents cfg w i ↔
      i = e ∧ cfg.log = true ∧ l = epochLastLoss w i ∧ a = epochAcc w i := by
  unfold cleanEpochEvents
  simp only [List.mem_append]
  cases hw : cfg.wandb <;> cases hl : cfg.log <;>
    by_cases hm : i % cfg.checkpoint_epoch = 0 <;>
    by_cases hb : bestWriteB w i = true <;>
    simp [hm, hb] <;> aesop

/-- isLoopEvent recognizes the events the epoch loop itself can emit,
as opposed to the post-loop and error-handler events. -/
def isLoopEvent : Event → Bool
  | .wandbLog _ _ _ => true
  | .logInfo _ _ _ => true
  | .savePeriodic _ _ => true
  | .saveBest _ _ => true
  | _ => false

lemma bestStep_events (cfg : Config) (w : World) (e : Nat) (b : Option ℚ) (acc : ℚ)
    (evs : List Event) :
    ∀ ev ∈ (bestStep cfg w e b acc evs).1, ev ∈ evs ∨ isLoopEvent ev = true := by
  intro ev hev
  unfold bestStep at hev
  by_cases h0 : e = 0
  · rw [if_pos h0] at hev
    rcases hsf : w.saveFail cfg.best_model_path with _ | m <;> rw [hsf] at hev <;>
      simp at hev
    · rcases hev with h | h
      · exact Or.inl h
      · subst h; exact Or.inr rfl
    · exact Or.inl hev
  · rw [if_neg h0] at hev
    rcases b with _ | bv
    · simp at hev; exact Or.inl hev
    · simp only at hev
      by_cases hlt : bv < acc
      · rw [if_pos hlt] at hev
        rcases hsf : w.saveFail cfg.best_model_path with _ | m <;> rw [hsf] at hev <;>
          simp at hev
        · rcases hev with h | h
          · exact Or.inl h
          · subst h; exact Or.inr rfl
        · exact Or.inl hev
      · rw [if_neg hlt] at hev
        simp at hev
        exact Or.inl hev

lemma periodicStep_events (cfg : Config) (w : World) (e : Nat) (b : Option ℚ) (acc : ℚ)
    (evs : List Event) :
    ∀ ev ∈ (periodicStep cfg w e b acc evs).1, ev ∈ evs ∨ isLoopEvent ev = true := by
  intro ev hev
  unfold periodicStep at hev
  by_cases hk : cfg.checkpoint_epoch = 0
  · rw [if_pos hk] at hev
    exact Or.inl hev
  · rw [if_neg hk] at hev
    by_cases hm : e % cfg.checkpoint_epoch = 0
    · rw [if_pos hm] at hev
      rcases hsf : w.saveFail (periodicPath cfg e) with _ | m <;> rw [hsf] at hev
      · rcases bestStep_events _ _ _ _ _ _ ev hev with h | h
        · simp at h
          rcases h with h | h
          · exact Or.inl h
          · subst h; exact Or.inr rfl
        · exact Or.inr h
      · exact Or.inl hev
    · rw [if_neg hm] at hev
      exact bestStep_events _ _ _ _ _ _ ev hev

lemma epochStep_events (cfg : Config) (w : World) (e : Nat) (b : Option ℚ) :
    ∀ ev ∈ (epochStep cfg w e b).1, isLoopEvent ev = true := by
  intro ev hev
  unfold epochStep at hev
  rcases hq : runBatches (w.batches e) with msg | ⟨c, s, l⟩ <;> rw [hq] at hev <;>
    simp only at hev
  · simp at hev
  · by_cases hs : s = 0
    · rw [if_pos hs] at hev; simp at hev
    · rw [if_neg hs] at hev
      rcases periodicStep_events _ _ _ _ _ _ ev hev with h | h
      · simp only [List.mem_append] at h
        rcases h with h | h
        · cases hw : cfg.wandb <;> rw [hw] at h <;> simp at h
          subst h; rfl
        · cases hl : cfg.log <;> rw [hl] at h <;> simp at h
          subst h; rfl
      · exact h

lemma runEpochs_events (cfg : Config) (w : World) :
    ∀ (n e : Nat) (b : Option ℚ),
      ∀ ev ∈ (runEpochs cfg w b e n).1, isLoopEvent ev = true := by
  intro n
  induction n with
  | zero => intro e b ev hev; simp [runEpochs] at hev
  | succ m ih =>
      intro e b ev hev
      unfold runEpochs at hev
      rcases hstep : epochStep cfg w e b with ⟨evs, r⟩
      rcases r with msg | b2 <;> rw [hstep] at hev <;> simp only [List.mem_append] at hev
      · have := epochStep_events cfg w e b ev
        rw [hstep] at this
        exact this hev
      · rcases hev with h | h
        · have := epochStep_events cfg w e b ev
          rw [hstep] at this
          exact this h
        · exact ih (e + 1) (some b2) ev h

lemma runEpochs_fail (cfg : Config) (w : World) (hk : cfg.checkpoint_epoch ≠ 0) :
    ∀ (n e f : Nat) (evf : List Event) (msg : String), e ≤ f → f < e + n →
      (∀ i, e ≤ i → i < f → epochClean cfg w i = true) →
      epochStep cfg w f (trackerArg w f) = (evf, .error msg) →
      runEpochs cfg w (trackerArg w e) e n =
        (((List.range (f - e)).map (fun i => cleanEpochEvents cfg w (e + i))).flatten ++ evf,
          .error msg) := by
  intro n
  induction n with
  | zero => intro e f evf msg h1 h2 _ _; omega
  | succ m ih =>
      intro e f evf msg hef hfn hcl hfail
      by_cases hef0 : e = f
      · subst hef0
        simp only [runEpochs, hfail]
        simp
      · have hlt : e < f := by omega
        have h0 : epochClean cfg w e = true := hcl e le_rfl hlt
        have hstep := epochStep_clean cfg w e hk h0
        have hrest := ih (e + 1) f evf msg (by omega) (by omega)
          (fun i h1 h2 => hcl i (by omega) h2) hfail
        have htr : (some (runBest w e)) = trackerArg w (e + 1) := rfl
        simp only [runEpochs, hstep, htr, hrest]
        rw [Prod.mk.injEq]
        refine ⟨?_, rfl⟩
        rw [← List.append_assoc]
        congr 1
        have harith : f - e = (f - (e + 1)) + 1 := by omega
        rw [harith, ← flatten_range_shift]

lemma train_of_runEpochs_error {cfg : Config} {w : World} {evs : List Event} {msg : String}
    (h : runEpochs cfg w none 0 cfg.epochs = (evs, .error msg)) :
    train cfg w = (evs ++ reportError cfg msg, .ok ()) := by
  unfold train
  rw [h]

lemma reportError_no_loopEvent (cfg : Config) (msg : String) :
    ∀ ev ∈ reportError cfg msg, isLoopEvent ev = false := by
  intro ev hev
  unfold reportError at hev
  simp only [List.mem_append] at hev
  rcases hev with h | h
  · cases hw : cfg.wandb <;> rw [hw] at h <;> simp at h
    subst h; rfl
  · cases hl : cfg.log <;> rw [hl] at h <;> simp at h
    subst h; rfl

/-- mkBatch builds a batch of `size` samples whose first `corr`
predictions agree with the labels, with loss value `l`. -/
def mkBatch (size corr : Nat) (l : ℚ) : Batch :=
  { labels := List.replicate size 0,
    predicted := List.replicate corr (0 : Int) ++ List.replicate (size - corr) 1,
    loss := l }

/-- exWorld realizes the accuracy sequence [70, 70, 80, 75, 90] of the
specification example, one batch per epoch, with no external failure. -/
def exWorld : World :=
  { batches := fun e =>
      if e = 0 then [.ok (mkBatch 10 7 1)]
      else if e = 1 then [.ok (mkBatch 10 7 2)]
      else if e = 2 then [.ok (mkBatch 10 8 3)]
      else if e = 3 then [.ok (mkBatch 4 3 4)]
      else [.ok (mkBatch 10 9 5)],
    saveFail := fun _ => none }

/-- exConfig is a five-epoch run with checkpoint interval 2 and both
sinks enabled. -/
def exConfig : Config := ⟨5, 2, true, true, "m", "best.pth"⟩

/-- emptyWorld is a data source yielding zero batches in every epoch. -/
def emptyWorld : World := ⟨fun _ => [], fun _ => none⟩

/-- oneEpochConfig is a one-epoch run with both sinks enabled. -/
def oneEpochConfig : Config := ⟨1, 1, true, true, "m", "best.pth"⟩

/-- C5: for every epoch whose batch loop completes, `total_samples`
equals the sum of the batch sizes the data source yielded,
`total_correct ≤ total_samples`, and the derived accuracy
`100 * total_correct / total_samples` lies in [0, 100] when the epoch
saw at least one sample. -/
theorem epoch_counter_invariants (w : World) (e : Nat) (c s : Nat) (l : ℚ)
    (hq : runBatches (w.batches e) = .ok (c, s, l)) :
    s = sumSizes (w.batches e) ∧ c ≤ s ∧
      (0 < s → 0 ≤ (100 * c : ℚ) / (s : ℚ) ∧ (100 * c : ℚ) / (s : ℚ) ≤ 100) := by
  obtain ⟨h1, h2⟩ := runBatchesAux_counts (w.batches e) 0 0 0 c s l hq
  refine ⟨by simpa using h1, by omega, ?_⟩
  intro hs
  have hc : c ≤ s := by omega
  have hsq : (0 : ℚ) < (s : ℚ) := by exact_mod_cast hs
  constructor
  · positivity
  · rw [div_le_iff hsq]
    have hcq : (c : ℚ) ≤ (s : ℚ) := by exact_mod_cast hc
    linarith

/-- Witness for epoch_counter_invariants at epoch 0 of exWorld. -/
theorem epoch_counter_invariants_witness :
    runBatches (exWorld.batches 0) = .ok (7, 10, 1) ∧
      10 = sumSizes (exWorld.batches 0) ∧ 7 ≤ 10 ∧
      (0 < 10 → 0 ≤ (100 * 7 : ℚ) / (10 : ℚ) ∧ (100 * 7 : ℚ) / (10 : ℚ) ≤ 100) :=
  ⟨by decide, epoch_counter_invariants exWorld 0 7 10 1 (by decide)⟩

lemma exWorld_rb0 : runBatches (exWorld.batches 0) = .ok (7, 10, 1) := by decide

lemma exWorld_rb1 : runBatches (exWorld.batches 1) = .ok (7, 10, 2) := by decide

lemma exWorld_rb2 : runBatches (exWorld.batches 2) = .ok (8, 10, 3) := by decide

lemma exWorld_rb3 : runBatches (exWorld.batches 3) = .ok (3, 4, 4) := by decide

lemma exWorld_rb4 : runBatches (exWorld.batches 4) = .ok (9, 10, 5) := by decide

lemma exWorld_acc0 : epochAcc exWorld 0 = 70 := by
  unfold epochAcc; rw [exWorld_rb0]; norm_num

lemma exWorld_acc1 : epochAcc exWorld 1 = 70 := by
  unfold epochAcc; rw [exWorld_rb1]; norm_num

lemma exWorld_acc2 : epochAcc exWorld 2 = 80 := by
  unfold epochAcc; rw [exWorld_rb2]; norm_num

lemma exWorld_acc3 : epochAcc exWorld 3 = 75 := by
  unfold epochAcc; rw [exWorld_rb3]; norm_num

lemma exWorld_acc4 : epochAcc exWorld 4 = 90 := by
  unfold epochAcc; rw [exWorld_rb4]; norm_num

lemma exWorld_runBest0 : runBest exWorld 0 = 70 := exWorld_acc0

lemma exWorld_runBest1 : runBest exWorld 1 = 70 := by
  show max (runBest exWorld 0) (epochAcc exWorld 1) = 70
  rw [exWorld_runBest0, exWorld_acc1]; norm_num

lemma exWorld_runBest2 : runBest exWorld 2 = 80 := by
  show max (runBest exWorld 1) (epochAcc exWorld 2) = 80
  rw [exWorld_runBest1, exWorld_acc2]; norm_num

lemma exWorld_runBest3 : runBest exWorld 3 = 80 := by
  show max (runBest exWorld 2) (epochAcc exWorld 3) = 80
  rw [exWorld_runBest2, exWorld_acc3]; norm_num

lemma exWorld_bw1 : bestWriteB exWorld 1 = false := by
  show decide (runBest exWorld 0 < epochAcc exWorld 1) = false
  rw [exWorld_runBest0, exWorld_acc1]; norm_num

lemma exWorld_bw2 : bestWriteB exWorld 2 = true := by
  show decide (runBest exWorld 1 < epochAcc exWorld 2) = true
  rw [exWorld_runBest1, exWorld_acc2]; norm_num

lemma exWorld_bw3 : bestWriteB exWorld 3 = false := by
  show decide (runBest exWorld 2 < epochAcc exWorld 3) = false
  rw [exWorld_runBest2, exWorld_acc3]; norm_num

lemma exWorld_bw4 : bestWriteB exWorld 4 = true := by
  show decide (runBest exWorld 3 < epochAcc exWorld 4) = true
  rw [exWorld_runBest3, exWorld_acc4]; norm_num

lemma filter_isBestSave_cleanEpochEvents (cfg : Config) (w : World) (i : Nat) :
    (cleanEpochEvents cfg w i).filter isBestSave =
      if bestWriteB w i = true then [Event.saveBest i cfg.best_model_path] else [] := by
  unfold cleanEpochEvents
  cases cfg.wandb <;> cases cfg.log <;>
    by_cases hm : i % cfg.checkpoint_epoch = 0 <;>
    by_cases hb : bestWriteB w i = true <;>
    simp [hm, hb, isBestSave, List.filter_append]

lemma exWorld_bestSaves :
    (train exConfig exWorld).1.filter isBestSave =
      [Event.saveBest 0 "best.pth", Event.saveBest 2 "best.pth",
        Event.saveBest 4 "best.pth"] := by
  rw [train_clean exConfig exWorld (by decide) (by decide)]
  show (cleanTrace exConfig exWorld).filter isBestSave = _
  unfold cleanTrace
  rw [List.filter_append, List.filter_append, List.filter_flatten, List.map_map]
  rw [show exConfig.epochs = 5 from rfl]
  rw [show List.range 5 = [0, 1, 2, 3, 4] from rfl]
  simp only [List.map_cons, List.map_nil, Function.comp_apply,
    filter_isBestSave_cleanEpochEvents]
  rw [show bestWriteB exWorld 0 = true from rfl, exWorld_bw1, exWorld_bw2,
    exWorld_bw3, exWorld_bw4]
  decide

/-- C1: the best-model checkpoint is written exactly once at epoch 0
(the tracker being initialized to epoch 0's accuracy), and at every
later epoch exactly when that epoch's accuracy strictly exceeds the
tracker, which holds the running maximum; a tie produces no write.  On
the accuracy sequence [70, 70, 80, 75, 90] the writes happen at epochs
0, 2 and 4 only. -/
theorem train_bestModel_write_policy (cfg : Config) (w : World)
    (h : cleanRun cfg w) (he : 0 < cfg.epochs) :
    countBestAt (train cfg w).1 0 = 1 ∧
    (∀ e : Nat, countBestAt (train cfg w).1 (e + 1) =
      if e + 1 < cfg.epochs ∧ runBest w e < epochAcc w (e + 1) then 1 else 0) ∧
    runBest w 0 = epochAcc w 0 ∧
    (train exConfig exWorld).1.filter isBestSave =
      [Event.saveBest 0 "best.pth", Event.saveBest 2 "best.pth",
        Event.saveBest 4 "best.pth"] := by
  have ht := train_clean cfg w h he
  refine ⟨?_, ?_, rfl, exWorld_bestSaves⟩
  · rw [ht]
    have := countBestAt_cleanTrace cfg w 0
    simp only [this]
    have hbw : bestWriteB w 0 = true := rfl
    simp [hbw, he]
  · intro e
    rw [ht]
    have := countBestAt_cleanTrace cfg w (e + 1)
    simp only [this]
    have hbw : bestWriteB w (e + 1) = decide (runBest w e < epochAcc w (e + 1)) := rfl
    rw [hbw]
    by_cases hc : runBest w e < epochAcc w (e + 1) <;>
      by_cases hlt : e + 1 < cfg.epochs <;> simp [hc, hlt]

/-- Witness applying train_bestModel_write_policy to the concrete
example run. -/
theorem train_bestModel_write_policy_witness :
    cleanRun exConfig exWorld ∧ 0 < exConfig.epochs ∧
      countBestAt (train exConfig exWorld).1 0 = 1 :=
  ⟨by decide, by decide,
    (train_bestModel_write_policy exConfig exWorld (by decide) (by decide)).1⟩

/-- C2: in a failure-free run a periodic checkpoint of the detection
model is written at epoch `e` exactly when the checkpoint interval
divides `e` (hence always at epoch 0), at the path
`<model_path>/epoch_<e>.pth`; distinct epochs always produce distinct
periodic paths, so no periodic checkpoint file is ever overwritten
later in the run. -/
theorem train_periodic_checkpoint_policy (cfg : Config) (w : World)
    (h : cleanRun cfg w) (he : 0 < cfg.epochs) :
    (∀ (e : Nat) (p : String), Event.savePeriodic e p ∈ (train cfg w).1 ↔
      (e < cfg.epochs ∧ e % cfg.checkpoint_epoch = 0 ∧ p = periodicPath cfg e)) ∧
    (∀ e e2 : Nat, e ≠ e2 → periodicPath cfg e ≠ periodicPath cfg e2) := by
  have ht := train_clean cfg w h he
  constructor
  · intro e p
    rw [ht]
    show Event.savePeriodic e p ∈ cleanTrace cfg w ↔ _
    unfold cleanTrace
    simp only [List.mem_append, List.mem_flatten, List.mem_map, List.mem_range]
    constructor
    · rintro (((⟨li, ⟨i, hi, rfl⟩, hmem⟩) | hmem) | hmem)
      · rw [mem_cleanEpochEvents_savePeriodic] at hmem
        obtain ⟨rfl, hm, rfl⟩ := hmem
        exact ⟨hi, hm, rfl⟩
      · by_cases hw2 : cfg.wandb = true <;> simp [hw2] at hmem
      · by_cases hl2 : cfg.log = true <;> simp [hl2] at hmem
    · rintro ⟨he2, hm, rfl⟩
      exact Or.inl (Or.inl ⟨cleanEpochEvents cfg w e, ⟨e, he2, rfl⟩,
        mem_cleanEpochEvents_savePeriodic.mpr ⟨rfl, hm, rfl⟩⟩)
  · intro e e2 hne hcontra
    exact hne (periodicPath_injective cfg hcontra)

/-- Witness applying train_periodic_checkpoint_policy to the example
run: epoch 2 is a multiple of the interval 2, so its periodic file is
written. -/
theorem train_periodic_checkpoint_policy_witness :
    cleanRun exConfig exWorld ∧ 0 < exConfig.epochs ∧
      Event.savePeriodic 2 (periodicPath exConfig 2) ∈ (train exConfig exWorld).1 :=
  ⟨by decide, by decide,
    ((train_periodic_checkpoint_policy exConfig exWorld (by decide) (by decide)).1 2
      (periodicPath exConfig 2)).mpr ⟨by decide, by decide, rfl⟩⟩

lemma epochLastLoss_eq_final {w : World} {e : Nat} (hok : epochOk w e = true) :
    epochLastLoss w e = finalBatchLoss w e := by
  obtain ⟨c, s, l, hq, hs⟩ := epochOk_elim hok
  have hll : epochLastLoss w e = l := by unfold epochLastLoss; rw [hq]
  rcases runBatchesAux_lastLoss (w.batches e) 0 0 0 c s l hq with ⟨hnil, _⟩ | ⟨b, hlast, hl⟩
  · rw [hnil] at hq
    have hq2 : (Except.ok ((0 : Nat), (0 : Nat), (0 : ℚ)) : Except String (Nat × Nat × ℚ)) =
        .ok (c, s, l) := hq
    simp only [Except.ok.injEq, Prod.mk.injEq] at hq2
    exact absurd hq2.2.1.symm hs
  · unfold finalBatchLoss
    rw [hlast, hll, hl]

lemma exWorld_lastLoss0 : epochLastLoss exWorld 0 = 1 := by
  unfold epochLastLoss; rw [exWorld_rb0]

/-- C4: every per-epoch record a failure-free run emits, both the
wandb record and the log line, carries as its loss value the loss of
the final mini-batch of that epoch. -/
theorem train_reported_loss_is_final_batch (cfg : Config) (w : World)
    (h : cleanRun cfg w) (he : 0 < cfg.epochs) :
    ∀ (e : Nat) (l a : ℚ),
      (Event.wandbLog e l a ∈ (train cfg w).1 ∨ Event.logInfo e l a ∈ (train cfg w).1) →
      l = finalBatchLoss w e := by
  have ht := train_clean cfg w h he
  intro e l a hmem
  have hseg : ∃ i, i < cfg.epochs ∧ i = e ∧ l = epochLastLoss w i := by
    rcases hmem with hmem | hmem
    · rw [ht] at hmem
      have hm : Event.wandbLog e l a ∈ cleanTrace cfg w := hmem
      unfold cleanTrace at hm
      simp only [List.mem_append, List.mem_flatten, List.mem_map, List.mem_range] at hm
      rcases hm with ((⟨li, ⟨i, hi, rfl⟩, hm2⟩) | hm2) | hm2
      · rw [mem_cleanEpochEvents_wandbLog] at hm2
        exact ⟨i, hi, hm2.1, hm2.2.2.1⟩
      · by_cases hw2 : cfg.wandb = true <;> simp [hw2] at hm2
      · by_cases hl2 : cfg.log = true <;> simp [hl2] at hm2
    · rw [ht] at hmem
      have hm : Event.logInfo e l a ∈ cleanTrace cfg w := hmem
      unfold cleanTrace at hm
      simp only [List.mem_append, List.mem_flatten, List.mem_map, List.mem_range] at hm
      rcases hm with ((⟨li, ⟨i, hi, rfl⟩, hm2⟩) | hm2) | hm2
      · rw [mem_cleanEpochEvents_logInfo] at hm2
        exact ⟨i, hi, hm2.1, hm2.2.2.1⟩
      · by_cases hw2 : cfg.wandb = true <;> simp [hw2] at hm2
      · by_cases hl2 : cfg.log = true <;> simp [hl2] at hm2
  obtain ⟨i, hi, rfl, hleq⟩ := hseg
  have hok : epochOk w i = true := (epochClean_parts (h.2 i hi)).1
  rw [hleq, epochLastLoss_eq_final hok]

/-- Witness applying train_reported_loss_is_final_batch to epoch 0 of
the example run, whose single (hence final) batch has loss 1. -/
theorem train_reported_loss_is_final_batch_witness :
    cleanRun exConfig exWorld ∧ (1 : ℚ) = finalBatchLoss exWorld 0 :=
  ⟨by decide,
    train_reported_loss_is_final_batch exConfig exWorld (by decide) (by decide) 0 1 70
      (Or.inl (by
        rw [train_clean exConfig exWorld (by decide) (by decide)]
        show _ ∈ cleanTrace exConfig exWorld
        unfold cleanTrace
        refine List.mem_append.mpr (Or.inl (List.mem_append.mpr (Or.inl ?_)))
        refine List.mem_flatten.mpr ⟨cleanEpochEvents exConfig exWorld 0,
          List.mem_map.mpr ⟨0, by decide, rfl⟩, ?_⟩
        rw [mem_cleanEpochEvents_wandbLog]
        exact ⟨rfl, rfl, exWorld_lastLoss0.symm, exWorld_acc0.symm⟩))⟩

/-- failWorld yields one clean epoch and then a data source failure in
epoch 1. -/
def failWorld : World :=
  ⟨fun e => if e = 0 then [.ok (mkBatch 10 7 1)] else [.error "boom"], fun _ => none⟩

/-- C3: a failure raised during epoch `f` — by the data source, either
model, the loss computation or a persistence call, all of which
surface as the exception escaping `epochStep` — is caught at the
single top-level boundary: `train` returns normally to its caller, the
trace consists of the events of the epochs before `f`, the partial
events of epoch `f`, then exactly one tracking alert when wandb is
enabled and exactly one error log line when log is enabled, no
`wandb.finish` is issued, and no event of any later epoch is emitted. -/
theorem train_failure_caught_reported_halts (cfg : Config) (w : World) (f : Nat)
    (evf : List Event) (msg : String)
    (hk : cfg.checkpoint_epoch ≠ 0) (hf : f < cfg.epochs)
    (hbefore : ∀ i, i < f → epochClean cfg w i = true)
    (hfail : epochStep cfg w f (trackerArg w f) = (evf, .error msg)) :
    train cfg w =
      ((((List.range f).map (cleanEpochEvents cfg w)).flatten ++ evf) ++
        reportError cfg msg, .ok ()) ∧
    (train cfg w).1.countP (fun ev => ev == Event.wandbAlert msg) =
      (if cfg.wandb then 1 else 0) ∧
    (train cfg w).1.countP (fun ev => ev == Event.logError msg) =
      (if cfg.log then 1 else 0) ∧
    Event.wandbFinish ∉ (train cfg w).1 := by
  have hre := runEpochs_fail cfg w hk cfg.epochs 0 f evf msg (by omega) (by omega)
    (fun i _ h2 => hbefore i h2) hfail
  simp only [Nat.sub_zero, Nat.zero_add, zero_add] at hre
  have hre2 : runEpochs cfg w none 0 cfg.epochs =
      (((List.range f).map (cleanEpochEvents cfg w)).flatten ++ evf, .error msg) := by
    simpa [trackerArg] using hre
  have htr := train_of_runEpochs_error hre2
  have hloop : ∀ ev ∈ (((List.range f).map (cleanEpochEvents cfg w)).flatten ++ evf),
      isLoopEvent ev = true := by
    intro ev hev
    have hx := runEpochs_events cfg w cfg.epochs 0 none ev
    rw [hre2] at hx
    exact hx hev
  refine ⟨by rw [htr, List.append_assoc], ?_, ?_, ?_⟩
  · rw [htr]
    show ((((List.range f).map (cleanEpochEvents cfg w)).flatten ++ evf) ++
      reportError cfg msg).countP _ = _
    rw [List.countP_append]
    have hza : (((List.range f).map (cleanEpochEvents cfg w)).flatten ++ evf).countP
        (fun ev => ev == Event.wandbAlert msg) = 0 := by
      rw [List.countP_eq_zero]
      intro ev hev
      have hl2 := hloop ev hev
      cases ev <;> simp_all [isLoopEvent]
    rw [hza]
    unfold reportError
    cases cfg.wandb <;> cases cfg.log <;> simp
  · rw [htr]
    show ((((List.range f).map (cleanEpochEvents cfg w)).flatten ++ evf) ++
      reportError cfg msg).countP _ = _
    rw [List.countP_append]
    have hza : (((List.range f).map (cleanEpochEvents cfg w)).flatten ++ evf).countP
        (fun ev => ev == Event.logError msg) = 0 := by
      rw [List.countP_eq_zero]
      intro ev hev
      have hl2 := hloop ev hev
      cases ev <;> simp_all [isLoopEvent]
    rw [hza]
    unfold reportError
    cases cfg.wandb <;> cases cfg.log <;> simp
  · rw [htr]
    intro hmem
    have hmem2 : Event.wandbFinish ∈
        (((List.range f).map (cleanEpochEvents cfg w)).flatten ++ evf) ++
          reportError cfg msg := hmem
    rcases List.mem_append.mp hmem2 with hmm | hmm
    · have := hloop _ hmm
      simp [isLoopEvent] at this
    · have := reportError_no_loopEvent cfg msg _ hmm
      unfold reportError at hmm
      rcases List.mem_append.mp hmm with hm3 | hm3 <;>
        [skip; skip] <;> first
        | (by_cases hw2 : cfg.wandb = true <;> simp [hw2] at hm3)
        | (by_cases hl2 : cfg.log = true <;> simp [hl2] at hm3)

/-- Witness applying train_failure_caught_reported_halts to the
failing world at epoch 1. -/
theorem train_failure_caught_reported_halts_witness :
    exConfig.checkpoint_epoch ≠ 0 ∧ 1 < exConfig.epochs ∧
      train exConfig failWorld =
        ((((List.range 1).map (cleanEpochEvents exConfig failWorld)).flatten ++ []) ++
          reportError exConfig "boom", .ok ()) :=
  ⟨by decide, by decide,
    (train_failure_caught_reported_halts exConfig failWorld 1 [] "boom" (by decide) (by decide)
      (fun i hi => by
        have h0 : i = 0 := by omega
        subst h0
        decide)
      (by decide)).1⟩

/-- C6 counterexample: with a data source yielding zero batches in
epoch 0, the ZeroDivisionError of the accuracy computation is caught
by the same top-level boundary as every runtime failure: `train`
reports it through both enabled sinks and returns normally, so the
failure is not allowed to propagate to the caller as a
process-terminating failure. -/
theorem divzero_not_process_terminating :
    train oneEpochConfig emptyWorld =
      ([Event.wandbAlert "division by zero", Event.logError "division by zero"],
        .ok ()) ∧
    (train oneEpochConfig emptyWorld).2 ≠ Except.error "division by zero" := by
  constructor
  · decide
  · decide

/-- C6 amended: a data source yielding zero batches in epoch `f` makes
the accuracy computation of that epoch raise a division-by-zero
failure; the failure is caught at the top-level boundary, reported
through each enabled sink, and the run terminates early without
re-raising, exactly like any other runtime failure. -/
theorem divzero_caught_and_reported (cfg : Config) (w : World) (f : Nat)
    (hk : cfg.checkpoint_epoch ≠ 0) (hf : f < cfg.epochs)
    (hbefore : ∀ i, i < f → epochClean cfg w i = true)
    (hempty : w.batches f = []) :
    train cfg w =
      (((List.range f).map (cleanEpochEvents cfg w)).flatten ++
        reportError cfg "division by zero", .ok ()) := by
  have hstep : epochStep cfg w f (trackerArg w f) = ([], .error "division by zero") := by
    unfold epochStep
    rw [hempty]
    rfl
  have hre := runEpochs_fail cfg w hk cfg.epochs 0 f [] "division by zero" (by omega)
    (by omega) (fun i _ h2 => hbefore i h2) hstep
  simp only [Nat.sub_zero, Nat.zero_add, zero_add, List.append_nil] at hre
  have hre2 : runEpochs cfg w none 0 cfg.epochs =
      (((List.range f).map (cleanEpochEvents cfg w)).flatten,
        .error "division by zero") := by
    simpa [trackerArg] using hre
  exact train_of_runEpochs_error hre2

/-- Witness applying divzero_caught_and_reported to a one-epoch run
over the empty data source. -/
theorem divzero_caught_and_reported_witness :
    oneEpochConfig.checkpoint_epoch ≠ 0 ∧ 0 < oneEpochConfig.epochs ∧
      train oneEpochConfig emptyWorld =
        (((List.range 0).map (cleanEpochEvents oneEpochConfig emptyWorld)).flatten ++
          reportError oneEpochConfig "division by zero", .ok ()) :=
  ⟨by decide, by decide,
    divzero_caught_and_reported oneEpochConfig emptyWorld 0 (by decide) (by decide)
      (fun i hi => absurd hi (by omega)) rfl⟩

lemma bestStep_events_save (cfg : Config) (w : World) (e : Nat) (b : Option ℚ) (acc : ℚ)
    (evs : List Event) :
    ∀ ev ∈ (bestStep cfg w e b acc evs).1, ev ∈ evs ∨ isSave ev = true := by
  intro ev hev
  unfold bestStep at hev
  by_cases h0 : e = 0
  · rw [if_pos h0] at hev
    rcases hsf : w.saveFail cfg.best_model_path with _ | m <;> rw [hsf] at hev <;>
      simp at hev
    · rcases hev with h | h
      · exact Or.inl h
      · subst h; exact Or.inr rfl
    · exact Or.inl hev
  · rw [if_neg h0] at hev
    rcases b with _ | bv
    · simp at hev; exact Or.inl hev
    · simp only at hev
      by_cases hlt : bv < acc
      · rw [if_pos hlt] at hev
        rcases hsf : w.saveFail cfg.best_model_path with _ | m <;> rw [hsf] at hev <;>
          simp at hev
        · rcases hev with h | h
          · exact Or.inl h
          · subst h; exact Or.inr rfl
        · exact Or.inl hev
      · rw [if_neg hlt] at hev
        simp at hev
        exact Or.inl hev

lemma periodicStep_events_save (cfg : Config) (w : World) (e : Nat) (b : Option ℚ)
    (acc : ℚ) (evs : List Event) :
    ∀ ev ∈ (periodicStep cfg w e b acc evs).1, ev ∈ evs ∨ isSave ev = true := by
  intro ev hev
  unfold periodicStep at hev
  by_cases hk : cfg.checkpoint_epoch = 0
  · rw [if_pos hk] at hev
    exact Or.inl hev
  · rw [if_neg hk] at hev
    by_cases hm : e % cfg.checkpoint_epoch = 0
    · rw [if_pos hm] at hev
      rcases hsf : w.saveFail (periodicPath cfg e) with _ | m <;> rw [hsf] at hev
      · rcases bestStep_events_save _ _ _ _ _ _ ev hev with h | h
        · simp at h
          rcases h with h | h
          · exact Or.inl h
          · subst h; exact Or.inr rfl
        · exact Or.inr h
      · exact Or.inl hev
    · rw [if_neg hm] at hev
      exact bestStep_events_save _ _ _ _ _ _ ev hev

lemma epochStep_events_save (cfg : Config) (w : World) (e : Nat) (b : Option ℚ)
    (hw : cfg.wandb = false) (hl : cfg.log = false) :
    ∀ ev ∈ (epochStep cfg w e b).1, isSave ev = true := by
  intro ev hev
  unfold epochStep at hev
  rcases hq : runBatches (w.batches e) with msg | ⟨c, s, l⟩ <;> rw [hq] at hev <;>
    simp only at hev
  · simp at hev
  · by_cases hs : s = 0
    · rw [if_pos hs] at hev; simp at hev
    · rw [if_neg hs] at hev
      rw [hw, hl] at hev
      simp only [Bool.false_eq_true, if_false, List.nil_append] at hev
      rcases periodicStep_events_save _ _ _ _ _ _ ev hev with h | h
      · simp at h
      · exact h

lemma runEpochs_events_save (cfg : Config) (w : World)
    (hw : cfg.wandb = false) (hl : cfg.log = false) :
    ∀ (n e : Nat) (b : Option ℚ),
      ∀ ev ∈ (runEpochs cfg w b e n).1, isSave ev = true := by
  intro n
  induction n with
  | zero => intro e b ev hev; simp [runEpochs] at hev
  | succ m ih =>
      intro e b ev hev
      unfold runEpochs at hev
      rcases hstep : epochStep cfg w e b with ⟨evs, r⟩
      rcases r with msg | b2 <;> rw [hstep] at hev <;> simp only [List.mem_append] at hev
      · have hx := epochStep_events_save cfg w e b hw hl ev
        rw [hstep] at hx
        exact hx hev
      · rcases hev with h | h
        · have hx := epochStep_events_save cfg w e b hw hl ev
          rw [hstep] at hx
          exact hx h
        · exact ih (e + 1) (some b2) ev h

lemma train_events_save (cfg : Config) (w : World) (hw : cfg.wandb = false)
    (hl : cfg.log = false) : ∀ ev ∈ (train cfg w).1, isSave ev = true := by
  intro ev hev
  unfold train at hev
  rcases hre : runEpochs cfg w none 0 cfg.epochs with ⟨evs, r⟩
  have hevs : ∀ ev2 ∈ evs, isSave ev2 = true := by
    intro ev2 h2
    have hx := runEpochs_events_save cfg w hw hl cfg.epochs 0 none ev2
    rw [hre] at hx
    exact hx h2
  rcases r with msg | bopt <;> rw [hre] at hev <;> simp only at hev
  · rcases List.mem_append.mp hev with h2 | h2
    · exact hevs ev h2
    · unfold reportError at h2
      rw [hw, hl] at h2
      simp at h2
  · rw [hw, hl] at hev
    simp at hev
    exact hevs ev hev

lemma cleanRun_flags (cfg : Config) (w : World) (b1 b2 : Bool) (h : cleanRun cfg w) :
    cleanRun ⟨cfg.epochs, cfg.checkpoint_epoch, b1, b2, cfg.model_path,
      cfg.best_model_path⟩ w := by
  obtain ⟨hk, hcl⟩ := h
  refine ⟨hk, fun e he2 => ?_⟩
  have hx := hcl e he2
  unfold epochClean at hx ⊢
  exact hx

lemma filter_isSave_cleanEpochEvents (cfg : Config) (w : World) (i : Nat) :
    (cleanEpochEvents cfg w i).filter isSave =
      (if i % cfg.checkpoint_epoch = 0 then [Event.savePeriodic i (periodicPath cfg i)]
        else []) ++
      (if bestWriteB w i = true then [Event.saveBest i cfg.best_model_path] else []) := by
  unfold cleanEpochEvents
  cases cfg.wandb <;> cases cfg.log <;>
    by_cases hm : i % cfg.checkpoint_epoch = 0 <;>
    by_cases hb : bestWriteB w i = true <;>
    simp [hm, hb, isSave, List.filter_append]

lemma filter_isSave_cleanTrace (cfg : Config) (w : World) :
    (cleanTrace cfg w).filter isSave =
      ((List.range cfg.epochs).map (fun i =>
        (if i % cfg.checkpoint_epoch = 0 then [Event.savePeriodic i (periodicPath cfg i)]
          else []) ++
        (if bestWriteB w i = true then [Event.saveBest i cfg.best_model_path] else []))).flatten := by
  unfold cleanTrace
  rw [List.filter_append, List.filter_append, List.filter_flatten, List.map_map]
  have h1 : (if cfg.wandb then [Event.wandbFinish] else []).filter isSave = [] := by
    cases cfg.wandb <;> simp [isSave]
  have h2 : (if cfg.log then [Event.logBest (runBest w (cfg.epochs - 1))] else []).filter
      isSave = [] := by
    cases cfg.log <;> simp [isSave]
  rw [h1, h2, List.append_nil, List.append_nil]
  have hfun : (List.filter isSave ∘ cleanEpochEvents cfg w) = fun i =>
      (if i % cfg.checkpoint_epoch = 0 then [Event.savePeriodic i (periodicPath cfg i)]
        else []) ++
      (if bestWriteB w i = true then [Event.saveBest i cfg.best_model_path] else []) :=
    funext (fun i => filter_isSave_cleanEpochEvents cfg w i)
  rw [hfun]

/-- C7: with both sink flags off, a failure-free run makes zero writes
to the tracking or logging sinks, while the checkpoint-write sequence
is exactly the one an identical run with any flag values produces: the
sink flags have no effect on which checkpoint files are written. -/
theorem train_flags_off_no_sink_writes (cfg : Config) (w : World)
    (hw : cfg.wandb = false) (hl : cfg.log = false)
    (h : cleanRun cfg w) (he : 0 < cfg.epochs) :
    (train cfg w).1.countP isSink = 0 ∧
    (∀ b1 b2 : Bool,
      (train ⟨cfg.epochs, cfg.checkpoint_epoch, b1, b2, cfg.model_path,
        cfg.best_model_path⟩ w).1.filter isSave = (train cfg w).1.filter isSave) := by
  constructor
  · rw [List.countP_eq_zero]
    intro ev hev
    have hx := train_events_save cfg w hw hl ev hev
    cases ev <;> simp_all [isSave, isSink]
  · intro b1 b2
    rw [train_clean _ w (cleanRun_flags cfg w b1 b2 h) he, train_clean cfg w h he]
    show (cleanTrace _ w).filter isSave = (cleanTrace cfg w).filter isSave
    rw [filter_isSave_cleanTrace, filter_isSave_cleanTrace]
    rfl

/-- exConfigOff is the example configuration with both sinks disabled. -/
def exConfigOff : Config := ⟨5, 2, false, false, "m", "best.pth"⟩

/-- Witness applying train_flags_off_no_sink_writes to the example run
with sinks disabled. -/
theorem train_flags_off_no_sink_writes_witness :
    cleanRun exConfigOff exWorld ∧ 0 < exConfigOff.epochs ∧
      (train exConfigOff exWorld).1.countP isSink = 0 :=
  ⟨by decide, by decide,
    (train_flags_off_no_sink_writes exConfigOff exWorld rfl rfl (by decide) (by decide)).1⟩

lemma cleanEpochEvents_loop (cfg : Config) (w : World) (i : Nat) :
    ∀ ev ∈ cleanEpochEvents cfg w i, isLoopEvent ev = true := by
  intro ev hev
  unfold cleanEpochEvents at hev
  simp only [List.mem_append] at hev
  rcases hev with ((h | h) | h) | h
  · by_cases hw2 : cfg.wandb = true <;> simp [hw2] at h
    subst h; rfl
  · by_cases hl2 : cfg.log = true <;> simp [hl2] at h
    subst h; rfl
  · by_cases hm : i % cfg.checkpoint_epoch = 0 <;> simp [hm] at h
    subst h; rfl
  · by_cases hb : bestWriteB w i = true <;> simp [hb] at h
    subst h; rfl

/-- C8: when every epoch of a run completes without failure, the
tracking session is closed exactly once when tracking is enabled, and
when logging is enabled the very last emitted record is the final log
line carrying the best accuracy achieved; on a failing run the session
close is never issued. -/
theorem train_success_finalization (cfg : Config) (w : World)
    (h : cleanRun cfg w) (he : 0 < cfg.epochs) :
    (cfg.wandb = true →
      (train cfg w).1.countP (fun ev => ev == Event.wandbFinish) = 1) ∧
    (cfg.log = true →
      (train cfg w).1.getLast? =
        some (Event.logBest (runBest w (cfg.epochs - 1)))) ∧
    (∀ (w2 : World) (evs : List Event) (msg : String),
      runEpochs cfg w2 none 0 cfg.epochs = (evs, .error msg) →
      Event.wandbFinish ∉ (train cfg w2).1) := by
  have ht := train_clean cfg w h he
  refine ⟨?_, ?_, ?_⟩
  · intro hw
    rw [ht]
    show (cleanTrace cfg w).countP _ = 1
    unfold cleanTrace
    rw [List.countP_append, List.countP_append]
    have h1 : (((List.range cfg.epochs).map (cleanEpochEvents cfg w)).flatten).countP
        (fun ev => ev == Event.wandbFinish) = 0 := by
      rw [List.countP_eq_zero]
      intro ev hev
      have hl2 : isLoopEvent ev = true := by
        rcases List.mem_flatten.mp hev with ⟨li, hli, hmem⟩
        rcases List.mem_map.mp hli with ⟨i, _, rfl⟩
        exact cleanEpochEvents_loop cfg w i ev hmem
      cases ev <;> simp_all [isLoopEvent]
    rw [h1, hw]
    cases cfg.log <;> simp
  · intro hl
    rw [ht]
    show (cleanTrace cfg w).getLast? = _
    unfold cleanTrace
    rw [hl]
    simp [List.getLast?_append]
  · intro w2 evs msg hre
    have htr := train_of_runEpochs_error hre
    rw [htr]
    intro hmem
    have hmem2 : Event.wandbFinish ∈ evs ++ reportError cfg msg := hmem
    rcases List.mem_append.mp hmem2 with hmm | hmm
    · have hx := runEpochs_events cfg w2 cfg.epochs 0 none Event.wandbFinish
      rw [hre] at hx
      have := hx hmm
      simp [isLoopEvent] at this
    · have := reportError_no_loopEvent cfg msg _ hmm
      unfold reportError at hmm
      rcases List.mem_append.mp hmm with hm3 | hm3
      · by_cases hw2 : cfg.wandb = true <;> simp [hw2] at hm3
      · by_cases hl2 : cfg.log = true <;> simp [hl2] at hm3

/-- Witness applying train_success_finalization to the example run. -/
theorem train_success_finalization_witness :
    cleanRun exConfig exWorld ∧ exConfig.wandb = true ∧
      (train exConfig exWorld).1.countP (fun ev => ev == Event.wandbFinish) = 1 :=
  ⟨by decide, rfl,
    (train_success_finalization exConfig exWorld (by decide) (by decide)).1 rfl⟩

/-- ArgNamespace is the argparse namespace of the entry point
(lines 135-144): each attribute is `none` when the Python value is
None and `some v` otherwise, since line 50 tests `value is not None`. -/
structure ArgNamespace where
  config : Option String
  detection_model : Option String
  main_model : Option String
  dataset : Option String
  debug : Option Bool
  wandb : Option Bool
  log : Option Bool
  tag : Option String
deriving Repr, DecidableEq

/-- ConfigDict is the slice of the JSON configuration dictionary that
`set_config` inspects; a `none` field is an absent key. -/
structure ConfigDict where
  wandb : Option Bool
  log : Option Bool
  debug : Option Bool
  detection_model : Option String
  main_model : Option String
  dataset : Option String
  tag : Option String
deriving Repr, DecidableEq

/-- applyArgs models the override loop of lines 48-51: every argparse
attribute whose value is not None overwrites the same-named key of the
configuration dictionary. -/
def applyArgs (c : ConfigDict) (a : ArgNamespace) : ConfigDict :=
  { wandb := match a.wandb with | some v => some v | none => c.wandb,
    log := match a.log with | some v => some v | none => c.log,
    debug := match a.debug with | some v => some v | none => c.debug,
    detection_model :=
      match a.detection_model with | some v => some v | none => c.detection_model,
    main_model := match a.main_model with | some v => some v | none => c.main_model,
    dataset := match a.dataset with | some v => some v | none => c.dataset,
    tag := match a.tag with | some v => some v | none => c.tag }

/-- set_config_merge models lines 48-57 of `set_config`, the logic
situated after the failing line 46, as it would behave had lines 46-47
loaded `fileConfig` from the configuration file: overlay the argparse
values, force `wandb` and `log` to False when `debug` is truthy
(line 52-53, with `config.get('debug', False)` read as a default of
False), then read `config['wandb']` (line 54, a KeyError when the key
is absent) to decide whether `wandb.init` runs.  The boolean in the
result records whether the tracking session was initialized. -/
def set_config_merge (fileConfig : ConfigDict) (a : ArgNamespace) :
    Except String (ConfigDict × Bool) :=
  let c1 := applyArgs fileConfig a
  let c2 := if c1.debug.getD false then { c1 with wandb := some false, log := some false }
    else c1
  match c2.wandb with
  | none => .error "KeyError: wandb"
  | some wb => .ok (c2, wb)

/-- set_config models `set_config` (lines 42-57) as written: its first
executable statement, line 46 `with open(args[config]) as f:`,
subscripts `args` with the local name `config`, which is first
assigned only on line 47; Python therefore raises UnboundLocalError
before anything else in the function body runs, on every input, and
the function never returns a configuration.  (Were line 46 passed, the
call shape would be wrong anyway: the entry point passes the string
`args.config`, on which `vars(args)` at line 48 raises TypeError; the
parameter is left polymorphic to reflect that the entry point does not
pass a namespace.)  The remainder of the body is modelled separately
by `set_config_merge`. -/
def set_config {α : Type} (args : α) : Except String ConfigDict :=
  .error "local variable config referenced before assignment"

/-- mainEntry models the `__main__` block (lines 134-146): with the
parsed argument namespace in hand, line 145 calls
`set_config(args.config)` — passing the string attribute, with the
argparse default when absent — and only if that returns does line 146
call `train`.  `toTrainConfig` stands for the glue the code would need
to view the returned dictionary as the training configuration. -/
def mainEntry (a : ArgNamespace) (w : World) (toTrainConfig : ConfigDict → Config) :
    Except String (List Event × Except String Unit) :=
  match set_config (a.config.getD "config.json") with
  | .error msg => .error msg
  | .ok cd => .ok (train (toTrainConfig cd) w)

/-- C9: whenever the debug attribute of the argument namespace is set,
the configuration produced by the merge logic of set_config has both
`wandb` and `log` forced to False and no tracking session is
initialized, and a training run over any configuration with both flags
False makes zero sink writes, on every path. -/
theorem debug_forces_sinks_off (fc : ConfigDict) (a : ArgNamespace)
    (hdbg : a.debug = some true) :
    (∃ c : ConfigDict, set_config_merge fc a = .ok (c, false) ∧
      c.wandb = some false ∧ c.log = some false) ∧
    (∀ (cfg : Config) (w : World), cfg.wandb = false → cfg.log = false →
      (train cfg w).1.countP isSink = 0) := by
  constructor
  · have hdb : (applyArgs fc a).debug = some true := by
      unfold applyArgs
      rw [hdbg]
    refine ⟨{ applyArgs fc a with wandb := some false, log := some false }, ?_, rfl, rfl⟩
    simp [set_config_merge, hdb]
  · intro cfg w hw hl
    rw [List.countP_eq_zero]
    intro ev hev
    have hx := train_events_save cfg w hw hl ev hev
    cases ev <;> simp_all [isSave, isSink]

/-- Witness applying debug_forces_sinks_off to a namespace with debug
set over a file config that enables both sinks. -/
theorem debug_forces_sinks_off_witness :
    (⟨"c.json", none, none, none, some true, some true, some true, ""⟩ :
        ArgNamespace).debug = some true ∧
      ∃ c : ConfigDict,
        set_config_merge
          ⟨some true, some true, none, none, none, none, none⟩
          ⟨"c.json", none, none, none, some true, some true, some true, ""⟩ =
            .ok (c, false) ∧ c.wandb = some false ∧ c.log = some false :=
  ⟨rfl,
    (debug_forces_sinks_off ⟨some true, some true, none, none, none, none, none⟩
      ⟨"c.json", none, none, none, some true, some true, some true, ""⟩ rfl).1⟩

/-- C10: `set_config` as written raises before returning on every
input, so the configuration-assembly path reachable from the entry
point never completes and `train` is never invoked via the CLI. -/
theorem set_config_never_completes :
    (∀ (α : Type) (args : α), set_config args =
      Except.error "local variable config referenced before assignment") ∧
    (∀ (a : ArgNamespace) (w : World) (f : ConfigDict → Config),
      mainEntry a w f =
        Except.error "local variable config referenced before assignment") := by
  refine ⟨fun α args => rfl, fun a w f => rfl⟩
